import Mathlib

/-!
Verification of the session ledger of Bankroll-Buddy
(`src/PokerStatTracker.js`), a class holding an ordered list of poker game
session records with derived aggregates.

Shallow embedding choices:
* JS numbers are embedded as exact rationals (`Rat`).
* The internal array `this._games` becomes a `List Game` inside a `Tracker`
  structure.
* `Math.random().toString(36).substr(2, 9)` in `_generateId` is embedded as
  an oracle `idSupply : Nat → String` together with a draw counter
  `nextIdx`; each call to the generator consumes the next oracle value and
  prepends the underscore, exactly as the source prepends it to the random
  suffix.  The oracle is arbitrary: a real `Math.random` stream may repeat.
* `updateGame`'s `findIndex` followed by in-place mutation of the found
  element is embedded as `updateFirst`, which rebuilds the list with the
  first element whose id matches replaced by its updated version; throwing
  `Error("Game session not found")` becomes `Except.error`.
* `deleteGame`'s `filter(game => game.id !== id)` becomes `List.filter`.
* Aggregates use `List.foldl` mirroring `Array.prototype.reduce` with
  initial value `0`.
* A second, reference-level model at the end of the definitions makes
  object identity explicit (a heap of record objects and of array
  objects), to settle what the value-level model cannot express: that
  `getGames()`'s `[...this._games]` copies the array but shares the
  record objects.
-/

namespace BankrollBuddy

/-- A game session record, the object literal built by `addGame`. -/
structure Game where
  id : String
  gameName : String
  buyIn : Rat
  cashOut : Rat
  stakes : String
  gainLoss : Rat
deriving DecidableEq

/-- The `updatedData` argument of `updateGame`: any subset of the four
updatable fields may be present (`undefined` becomes `none`). -/
structure UpdateData where
  gameName : Option String
  buyIn : Option Rat
  cashOut : Option Rat
  stakes : Option String
deriving DecidableEq

/-- The tracker state: the `_games` array plus the id-generation oracle. -/
structure Tracker where
  games : List Game
  idSupply : Nat → String
  nextIdx : Nat

/-- `_calculateGainLoss(buyIn, cashOut)`: returns `cashOut - buyIn`. -/
def calculateGainLoss (buyIn cashOut : Rat) : Rat := cashOut - buyIn

/-- `_generateId()`: `'_' + Math.random().toString(36).substr(2, 9)`; the
random suffix is the next value of the oracle stream. -/
def generateId (t : Tracker) : String × Tracker :=
  ("_" ++ t.idSupply t.nextIdx, { t with nextIdx := t.nextIdx + 1 })

/-- `addGame(gameName, buyIn, cashOut, stakes)`: builds the record with a
generated id and `gainLoss = _calculateGainLoss(buyIn, cashOut)` and pushes
it onto `_games`.  The JS method body has no `return` statement, so the
call's value is `undefined`, embedded as the second component `none`. -/
def addGame (t : Tracker) (gameName : String) (buyIn cashOut : Rat)
    (stakes : String) : Tracker × Option String :=
  let p := generateId t
  let game : Game :=
    { id := p.1, gameName := gameName, buyIn := buyIn, cashOut := cashOut,
      stakes := stakes, gainLoss := calculateGainLoss buyIn cashOut }
  ({ p.2 with games := p.2.games ++ [game] }, none)

/-- The in-place field mutations of `updateGame` on the found record: each
defined field of `updatedData` overwrites the record's field, then
`gainLoss` is recomputed iff `buyIn` or `cashOut` was among them. -/
def applyUpdate (u : UpdateData) (g : Game) : Game :=
  let g1 := match u.gameName with
    | some v => { g with gameName := v }
    | none => g
  let g2 := match u.buyIn with
    | some v => { g1 with buyIn := v }
    | none => g1
  let g3 := match u.cashOut with
    | some v => { g2 with cashOut := v }
    | none => g2
  let g4 := match u.stakes with
    | some v => { g3 with stakes := v }
    | none => g3
  if u.buyIn.isSome || u.cashOut.isSome then
    { g4 with gainLoss := calculateGainLoss g4.buyIn g4.cashOut }
  else g4

/-- `findIndex(game => game.id === id)` followed by mutating the element at
that index: the first record whose id matches is replaced by its updated
version, all others are kept; `none` when no record matches (index `-1`). -/
def updateFirst (u : UpdateData) (id : String) : List Game → Option (List Game)
  | [] => none
  | g :: gs =>
    if g.id = id then some (applyUpdate u g :: gs)
    else (updateFirst u id gs).map (g :: ·)

/-- `updateGame(id, updatedData)`: throws `Error("Game session not found")`
when `findIndex` returns `-1` (embedded as `Except.error`; the throw happens
before any mutation, so the caller's state is untouched), otherwise mutates
the found record. -/
def updateGame (t : Tracker) (id : String) (u : UpdateData) :
    Except String Tracker :=
  match updateFirst u id t.games with
  | none => Except.error "Game session not found"
  | some gs => Except.ok { t with games := gs }

/-- `deleteGame(id)`: `this._games = this._games.filter(game => game.id !== id)`. -/
def deleteGame (t : Tracker) (id : String) : Tracker :=
  { t with games := t.games.filter (fun g => g.id != id) }

/-- `clearGames()`: `this._games = []`. -/
def clearGames (t : Tracker) : Tracker := { t with games := [] }

/-- `getGames()`: `[...this._games]` — the value of the games sequence (the
reference-level shallowness of the copy is modelled separately below). -/
def getGames (t : Tracker) : List Game := t.games

/-- `getTotalGainLoss()`: `reduce((total, game) => total + game.gainLoss, 0)`. -/
def getTotalGainLoss (t : Tracker) : Rat :=
  t.games.foldl (fun total game => total + game.gainLoss) 0

/-- `getTotalGamesPlayed()`: `this._games.length`. -/
def getTotalGamesPlayed (t : Tracker) : Nat := t.games.length

/-- `getTotalBuyIn()`: `reduce((total, game) => total + game.buyIn, 0)`. -/
def getTotalBuyIn (t : Tracker) : Rat :=
  t.games.foldl (fun total game => total + game.buyIn) 0

/-- `getTotalCashOut()`: `reduce((total, game) => total + game.cashOut, 0)`. -/
def getTotalCashOut (t : Tracker) : Rat :=
  t.games.foldl (fun total game => total + game.cashOut) 0

/-- Ledger states reachable from a fresh tracker (empty `_games`, any
random oracle) by the mutating operations. -/
inductive Reachable : Tracker → Prop
  | init (supply : Nat → String) : Reachable ⟨[], supply, 0⟩
  | add {t : Tracker} (h : Reachable t) (n : String) (b c : Rat) (st : String) :
      Reachable (addGame t n b c st).1
  | update {t t' : Tracker} (h : Reachable t) (id : String) (u : UpdateData)
      (hok : updateGame t id u = Except.ok t') : Reachable t'
  | del {t : Tracker} (h : Reachable t) (id : String) :
      Reachable (deleteGame t id)
  | clear {t : Tracker} (h : Reachable t) : Reachable (clearGames t)

/-- Every record of the ledger satisfies `gainLoss = cashOut - buyIn`. -/
def GainLossInv (t : Tracker) : Prop :=
  ∀ g ∈ t.games, g.gainLoss = g.cashOut - g.buyIn

/-- The ids in the ledger are, in order, a sub-sequence of the ids the
generator has produced so far: each record id is the underscore followed
by one oracle draw.  This is all `_generateId` guarantees; it yields
uniqueness only when the oracle itself never repeats a value. -/
def IdsFromSupply (t : Tracker) : Prop :=
  (t.games.map (fun g => g.id)).Sublist
    ((List.range t.nextIdx).map (fun k => "_" ++ t.idSupply k))

/-- An oracle that always returns the same random suffix: a possible (if
unlucky) behaviour of `Math.random().toString(36).substr(2, 9)`. -/
def supplyX : Nat → String := fun _ => "x"

/-- An oracle whose draws are pairwise distinct. -/
def supplyDistinct : Nat → String := fun k => String.mk (List.replicate k 'a')

/-- A freshly constructed tracker (constant oracle). -/
def t0 : Tracker := ⟨[], supplyX, 0⟩

/-- The tracker after one `addGame` on `t0`. -/
def t1 : Tracker := (addGame t0 "Friday Game" 100 150 "1/2").1

/-- The record `t1` holds. -/
def rec1 : Game :=
  { id := "_x", gameName := "Friday Game", buyIn := 100, cashOut := 150,
    stakes := "1/2", gainLoss := 150 - 100 }

/-- An `updatedData` with no field supplied. -/
def uEmpty : UpdateData := ⟨none, none, none, none⟩

/-- The `updatedData` supplying only a new buy-in. -/
def uBuy : UpdateData := ⟨none, some 120, none, none⟩

/-! ### Reference-level model of `getGames`

The pure model above treats the games sequence as a value, which cannot
express the JS distinction between copying an array object and copying
the record objects inside it.  In the source, `getGames()` is
`[...this._games]` — a newly allocated array holding the same record
references — while `updateGame` mutates record objects in place, so record
objects are genuinely shared between a snapshot and the ledger.  The model
below makes objects explicit: a heap of record objects and a heap of array
objects (lists of record addresses); `this._games` is the address of an
array object. -/

structure Heap where
  recs : List Game
  arrs : List (List Nat)
deriving DecidableEq

structure HTracker where
  heap : Heap
  gamesArr : Nat
deriving DecidableEq

/-- Dereference an array object. -/
def arrGet (h : Heap) (a : Nat) : List Nat := (h.arrs[a]?).getD []

/-- Dereference a record object. -/
def recGet (h : Heap) (r : Nat) : Option Game := h.recs[r]?

/-- `getGames()` in the reference model: `[...this._games]` allocates a
fresh array object containing the same record references and returns its
address. -/
def hGetGames (t : HTracker) : Nat × HTracker :=
  (t.heap.arrs.length,
   { t with heap :=
      { t.heap with arrs := t.heap.arrs ++ [arrGet t.heap t.gamesArr] } })

/-- A caller mutating an array object (e.g. rearranging the snapshot). -/
def arrWrite (t : HTracker) (a : Nat) (l : List Nat) : HTracker :=
  { t with heap := { t.heap with arrs := t.heap.arrs.set a l } }

/-- A caller mutating a record object in place (exactly what `updateGame`
itself does to the ledger's records). -/
def recWrite (t : HTracker) (r : Nat) (g : Game) : HTracker :=
  { t with heap := { t.heap with recs := t.heap.recs.set r g } }

/-- The ledger's observable contents: the record objects its internal
array refers to, in order. -/
def hList (t : HTracker) : List Game :=
  (arrGet t.heap t.gamesArr).filterMap (fun r => recGet t.heap r)

/-- A concrete record object. -/
def gA : Game := ⟨"_a", "g", 1, 2, "1/2", 1⟩

/-- `gA` after a caller assigns `cashOut = 5, gainLoss = 4`. -/
def gB : Game := ⟨"_a", "g", 1, 5, "1/2", 4⟩

/-- A ledger holding one record object (address 0); its internal games
array is array object 0. -/
def ht0 : HTracker := ⟨⟨[gA], [[0]]⟩, 0⟩

/-! ### Helper lemmas about the update operation -/

theorem applyUpdate_id (u : UpdateData) (g : Game) :
    (applyUpdate u g).id = g.id := by
  obtain ⟨gn, bi, co, st⟩ := u
  cases gn <;> cases bi <;> cases co <;> cases st <;> simp [applyUpdate]

theorem applyUpdate_gainLoss (u : UpdateData) (g : Game)
    (h : g.gainLoss = g.cashOut - g.buyIn) :
    (applyUpdate u g).gainLoss =
      (applyUpdate u g).cashOut - (applyUpdate u g).buyIn := by
  obtain ⟨gn, bi, co, st⟩ := u
  cases gn <;> cases bi <;> cases co <;> cases st <;>
    simp [applyUpdate, calculateGainLoss, h]

theorem applyUpdate_frame (u : UpdateData) (g : Game) :
    (u.gameName = none → (applyUpdate u g).gameName = g.gameName) ∧
    (u.buyIn = none → (applyUpdate u g).buyIn = g.buyIn) ∧
    (u.cashOut = none → (applyUpdate u g).cashOut = g.cashOut) ∧
    (u.stakes = none → (applyUpdate u g).stakes = g.stakes) ∧
    (u.buyIn = none → u.cashOut = none →
      (applyUpdate u g).gainLoss = g.gainLoss) := by
  obtain ⟨gn, bi, co, st⟩ := u
  cases gn <;> cases bi <;> cases co <;> cases st <;> simp [applyUpdate]

theorem updateFirst_eq_none (u : UpdateData) (id : String) :
    ∀ {l : List Game}, (∀ g ∈ l, g.id ≠ id) → updateFirst u id l = none := by
  intro l
  induction l with
  | nil => intro _; rfl
  | cons a as ih =>
      intro h
      have ha : a.id ≠ id := h a (by simp)
      simp [updateFirst, ha, ih (fun g hg => h g (by simp [hg]))]

theorem updateFirst_append (u : UpdateData) (id : String) (pre : List Game)
    (g : Game) (post : List Game) (hpre : ∀ x ∈ pre, x.id ≠ id)
    (hg : g.id = id) :
    updateFirst u id (pre ++ g :: post) =
      some (pre ++ applyUpdate u g :: post) := by
  induction pre with
  | nil => simp [updateFirst, hg]
  | cons a as ih =>
      have ha : a.id ≠ id := hpre a (by simp)
      simp [updateFirst, ha, ih (fun x hx => hpre x (by simp [hx]))]

theorem updateFirst_eq_some (u : UpdateData) (id : String) :
    ∀ {l l' : List Game}, updateFirst u id l = some l' →
      ∃ pre g post, l = pre ++ g :: post ∧ g.id = id ∧
        (∀ x ∈ pre, x.id ≠ id) ∧ l' = pre ++ applyUpdate u g :: post := by
  intro l
  induction l with
  | nil => intro l' h; cases h
  | cons a as ih =>
      intro l' h
      by_cases ha : a.id = id
      · refine ⟨[], a, as, by simp, ha, by simp, ?_⟩
        simp [updateFirst, ha] at h
        simp [h.symm]
      · simp [updateFirst, ha] at h
        obtain ⟨as', has', hl'⟩ := h
        obtain ⟨pre, g, post, hsplit, hg, hpre, hres⟩ := ih has'
        exact ⟨a :: pre, g, post, by simp [hsplit], hg,
          by simpa [ha] using hpre, by simp [hl'.symm, hres]⟩

/-! ### The gain/loss invariant on reachable states -/

theorem gainLossInv_of_reachable {t : Tracker} (h : Reachable t) :
    GainLossInv t := by
  induction h with
  | init supply => intro g hg; cases hg
  | add h n b c st ih =>
      intro g hg
      simp [addGame, generateId] at hg
      rcases hg with hg | hg
      · exact ih g hg
      · subst hg; simp [calculateGainLoss]
  | update h id u hok ih =>
      revert hok
      unfold updateGame
      cases hfind : updateFirst u id _ with
      | none => intro hok; cases hok
      | some gs =>
          intro hok
          obtain ⟨pre, g0, post, hsplit, _, _, hres⟩ :=
            updateFirst_eq_some u id hfind
          cases hok
          intro g hg
          simp [hres] at hg
          rcases hg with hg | hg | hg
      -- records before / the updated one / after
          · exact ih g (by simp [hsplit, hg])
          · subst hg
            exact applyUpdate_gainLoss u g0 (ih g0 (by simp [hsplit]))
          · exact ih g (by simp [hsplit, hg])
  | del h id ih =>
      intro g hg
      exact ih g (List.mem_of_mem_filter hg)
  | clear h ih => intro g hg; cases hg

/-! ### Sum helper lemmas -/

theorem foldl_add_eq_sum (f : Game → Rat) (l : List Game) :
    ∀ a : Rat, l.foldl (fun total g => total + f g) a = a + (l.map f).sum := by
  induction l with
  | nil => intro a; simp
  | cons x xs ih => intro a; simp [ih]; ring

theorem sum_gainLoss_of_inv (l : List Game)
    (h : ∀ g ∈ l, g.gainLoss = g.cashOut - g.buyIn) :
    (l.map (fun g => g.gainLoss)).sum =
      (l.map (fun g => g.cashOut)).sum - (l.map (fun g => g.buyIn)).sum := by
  induction l with
  | nil => simp
  | cons x xs ih =>
      have hx := h x (by simp)
      have ihx := ih (fun g hg => h g (by simp [hg]))
      simp [hx, ihx]
      ring

theorem getTotalGainLoss_eq_sum (t : Tracker) :
    getTotalGainLoss t = (t.games.map (fun g => g.gainLoss)).sum := by
  simpa [getTotalGainLoss] using
    foldl_add_eq_sum (fun g => g.gainLoss) t.games 0

theorem getTotalBuyIn_eq_sum (t : Tracker) :
    getTotalBuyIn t = (t.games.map (fun g => g.buyIn)).sum := by
  simpa [getTotalBuyIn] using foldl_add_eq_sum (fun g => g.buyIn) t.games 0

theorem getTotalCashOut_eq_sum (t : Tracker) :
    getTotalCashOut t = (t.games.map (fun g => g.cashOut)).sum := by
  simpa [getTotalCashOut] using
    foldl_add_eq_sum (fun g => g.cashOut) t.games 0

/-! ### Provenance of record ids -/

theorem underscore_append_inj {a b : String} (h : "_" ++ a = "_" ++ b) :
    a = b := by
  rw [String.ext_iff] at h ⊢
  simpa [String.data_append] using h

theorem idsFromSupply_of_reachable {t : Tracker} (h : Reachable t) :
    IdsFromSupply t := by
  induction h with
  | init supply => simp [IdsFromSupply]
  | add h n b c st ih =>
      unfold IdsFromSupply at ih ⊢
      simp only [addGame, generateId, List.map_append, List.range_succ]
      exact List.Sublist.append ih (by simp)
  | update h id u hok ih =>
      revert hok
      unfold updateGame
      cases hfind : updateFirst u id _ with
      | none => intro hok; cases hok
      | some gs =>
          intro hok
          obtain ⟨pre, g0, post, hsplit, _, _, hres⟩ :=
            updateFirst_eq_some u id hfind
          cases hok
          unfold IdsFromSupply at ih ⊢
          simpa [hres, hsplit, applyUpdate_id] using ih
  | del h id ih =>
      unfold IdsFromSupply at ih ⊢
      simp only [deleteGame]
      exact List.Sublist.trans
        (List.Sublist.map (fun g : Game => g.id) (List.filter_sublist _)) ih
  | clear h ih => simp [IdsFromSupply, clearGames]

theorem supplyDistinct_injective : Function.Injective supplyDistinct := by
  intro a b hab
  have hd := congrArg String.data hab
  simp [supplyDistinct] at hd
  exact hd

/-! ### Claims -/

/-- C1: in every reachable ledger state — in particular immediately after
`addGame`, and after any `updateGame` whose supplied fields include
`buyIn` or `cashOut` (the recomputation merges updated and unchanged
monetary fields) — every record satisfies `gainLoss = cashOut - buyIn`. -/
theorem gainLoss_invariant {t : Tracker} (h : Reachable t) :
    ∀ g ∈ t.games, g.gainLoss = g.cashOut - g.buyIn :=
  gainLossInv_of_reachable h

theorem gainLoss_invariant_witness :
    rec1.gainLoss = rec1.cashOut - rec1.buyIn :=
  gainLoss_invariant
    (Reachable.add (Reachable.init supplyX) "Friday Game" 100 150 "1/2")
    rec1 (by simp [addGame, generateId, supplyX, rec1, calculateGainLoss])

/-- C2: in every reachable ledger state, `getTotalGainLoss()` equals
`getTotalCashOut() - getTotalBuyIn()` (exact rational arithmetic). -/
theorem totalGainLoss_eq_totalCashOut_sub_totalBuyIn {t : Tracker}
    (h : Reachable t) :
    getTotalGainLoss t = getTotalCashOut t - getTotalBuyIn t := by
  rw [getTotalGainLoss_eq_sum, getTotalCashOut_eq_sum, getTotalBuyIn_eq_sum]
  exact sum_gainLoss_of_inv t.games (gainLossInv_of_reachable h)

theorem totalGainLoss_eq_sub_witness :
    getTotalGainLoss t1 = getTotalCashOut t1 - getTotalBuyIn t1 :=
  totalGainLoss_eq_totalCashOut_sub_totalBuyIn
    (Reachable.add (Reachable.init supplyX) "Friday Game" 100 150 "1/2")

/-- C3: when no record of the ledger has the given id, `updateGame` fails
with the `"Game session not found"` error for any `updatedData`; the throw
happens before any mutation, so the tracker value passed in is untouched
(the error carries no successor state). -/
theorem updateGame_notFound {t : Tracker} {id : String} (u : UpdateData)
    (h : ∀ g ∈ t.games, g.id ≠ id) :
    updateGame t id u = Except.error "Game session not found" := by
  unfold updateGame
  rw [updateFirst_eq_none u id h]

theorem updateGame_notFound_witness :
    updateGame t0 "nope" uEmpty = Except.error "Game session not found" :=
  updateGame_notFound uEmpty (by decide)

/-- C4 (amended): `addGame` appends exactly one record holding the given
fields, the next id drawn from the generator, and
`gainLoss = cashOut - buyIn`; it never fails, and it returns `undefined`
(no return statement), not the new record's id. -/
theorem addGame_appends_record (t : Tracker) (n : String) (b c : Rat)
    (st : String) :
    (addGame t n b c st).1.games =
      t.games ++ [{ id := "_" ++ t.idSupply t.nextIdx, gameName := n,
                    buyIn := b, cashOut := c, stakes := st,
                    gainLoss := c - b }] ∧
    (addGame t n b c st).2 = none := by
  simp [addGame, generateId, calculateGainLoss]

/-- C4 counterexample: on a concrete call the appended record's id is
`"_x"`, yet the call's value is `none` (`undefined`), not `some "_x"`: the
id is not returned to the caller. -/
theorem addGame_return_counterexample :
    (addGame t0 "g" 1 2 "1/2").1.games.map (fun g => g.id) = ["_x"] ∧
    (addGame t0 "g" 1 2 "1/2").2 ≠ some "_x" := by
  constructor
  · decide
  · decide

/-- C5 (amended): id uniqueness holds only conditionally: in any reachable
state whose random oracle never repeats a value, no two records share an
id (ids being assigned at creation and never changed by updates); the code
itself performs no collision check, so an oracle that repeats a value
breaks uniqueness. -/
theorem ids_nodup_of_injective_supply {t : Tracker} (h : Reachable t)
    (hinj : Function.Injective t.idSupply) :
    (t.games.map (fun g => g.id)).Nodup := by
  have hsub := idsFromSupply_of_reachable h
  refine List.Nodup.sublist hsub (List.Nodup.map ?_ (List.nodup_range _))
  intro a b hab
  exact hinj (underscore_append_inj hab)

theorem ids_nodup_witness :
    ((addGame (addGame ⟨[], supplyDistinct, 0⟩ "a" 1 2 "1/2").1
        "b" 3 4 "2/5").1.games.map (fun g => g.id)).Nodup :=
  ids_nodup_of_injective_supply
    (Reachable.add (Reachable.add (Reachable.init supplyDistinct)
      "a" 1 2 "1/2") "b" 3 4 "2/5")
    supplyDistinct_injective

/-- C5 counterexample: with an oracle that repeats a suffix — a behaviour
`Math.random` does not exclude — two `addGame` calls yield two records with
the identical id `"_x"`: uniqueness is not an invariant of the code. -/
theorem ids_nodup_counterexample :
    Reachable (addGame (addGame t0 "a" 1 2 "1/2").1 "b" 3 4 "2/5").1 ∧
    ¬ (((addGame (addGame t0 "a" 1 2 "1/2").1 "b" 3 4 "2/5").1.games.map
        (fun g => g.id)).Nodup) :=
  ⟨Reachable.add (Reachable.add (Reachable.init supplyX) "a" 1 2 "1/2")
     "b" 3 4 "2/5",
   by decide⟩

/-- C6 (amended): `getGames` returns the records in insertion order as a
shallow copy — a freshly allocated array, distinct from the internal one,
holding the ledger's own record references.  Taking the snapshot does not
change the ledger, and mutating the returned array does not either; but
the record objects are shared, so mutating a record reached through the
snapshot does change the ledger (see the counterexample). -/
theorem getGames_shallow_copy (t : HTracker)
    (h : t.gamesArr < t.heap.arrs.length) :
    (hGetGames t).1 ≠ t.gamesArr ∧
    arrGet (hGetGames t).2.heap (hGetGames t).1 = arrGet t.heap t.gamesArr ∧
    hList (hGetGames t).2 = hList t ∧
    (∀ l : List Nat,
      hList (arrWrite (hGetGames t).2 (hGetGames t).1 l) = hList t) := by
  have hne : t.heap.arrs.length ≠ t.gamesArr := (Nat.ne_of_lt h).symm
  refine ⟨hne, ?_, ?_, ?_⟩
  · simp [hGetGames, arrGet, List.getElem?_concat_length]
  · simp [hList, hGetGames, arrGet, recGet, List.getElem?_append, h]
  · intro l
    simp [hList, hGetGames, arrWrite, arrGet, recGet,
      List.getElem?_set_ne hne, List.getElem?_append, h]

theorem getGames_shallow_copy_witness :
    (hGetGames ht0).1 ≠ ht0.gamesArr ∧
    hList (arrWrite (hGetGames ht0).2 (hGetGames ht0).1 []) = hList ht0 := by
  have h := getGames_shallow_copy ht0 (by decide)
  exact ⟨h.1, h.2.2.2 []⟩

/-- C6 counterexample: record address 0 is an element of the array
returned by `getGames`, and mutating the record object behind it changes
the ledger's observable contents — the snapshot is not independent at the
record level, because `[...this._games]` copies only the array. -/
theorem getGames_snapshot_counterexample :
    0 ∈ arrGet (hGetGames ht0).2.heap (hGetGames ht0).1 ∧
    hList (recWrite (hGetGames ht0).2 0 gB) ≠ hList (hGetGames ht0).2 := by
  constructor
  · decide
  · decide

/-- C7: `deleteGame` removes the record with the given id when one is
present and is a no-op (not an error) when none is: the tracker is then
returned unchanged; in either case the surviving records keep their
relative order (the result is a sub-sequence of the original), including
when the deleted record sat in the middle. -/
theorem deleteGame_spec (t : Tracker) (id : String) :
    ((∀ g ∈ t.games, g.id ≠ id) → deleteGame t id = t) ∧
    (deleteGame t id).games.Sublist t.games ∧
    (∀ g, g ∈ (deleteGame t id).games ↔ g ∈ t.games ∧ g.id ≠ id) := by
  refine ⟨?_, List.filter_sublist _, ?_⟩
  · intro h
    have heq : t.games.filter (fun g => g.id != id) = t.games :=
      List.filter_eq_self.mpr (fun a ha => by simpa using h a ha)
    simp [deleteGame, heq]
  · intro g
    simp [deleteGame, List.mem_filter]

theorem deleteGame_spec_witness : deleteGame t1 "nope" = t1 :=
  (deleteGame_spec t1 "nope").1 (by decide)

/-- C8: the four aggregate queries are total functions of the state:
`getTotalGainLoss`, `getTotalBuyIn` and `getTotalCashOut` are the sums of
the corresponding field over all records, `getTotalGamesPlayed` is the
number of records, and all four are `0` on an empty ledger. -/
theorem aggregates_spec (t : Tracker) :
    getTotalGainLoss t = (t.games.map (fun g => g.gainLoss)).sum ∧
    getTotalBuyIn t = (t.games.map (fun g => g.buyIn)).sum ∧
    getTotalCashOut t = (t.games.map (fun g => g.cashOut)).sum ∧
    getTotalGamesPlayed t = t.games.length ∧
    (t.games = [] →
      getTotalGainLoss t = 0 ∧ getTotalBuyIn t = 0 ∧
      getTotalCashOut t = 0 ∧ getTotalGamesPlayed t = 0) := by
  refine ⟨getTotalGainLoss_eq_sum t, getTotalBuyIn_eq_sum t,
    getTotalCashOut_eq_sum t, rfl, ?_⟩
  intro h
  simp [getTotalGainLoss, getTotalBuyIn, getTotalCashOut,
    getTotalGamesPlayed, h]

theorem aggregates_spec_witness :
    getTotalGainLoss t0 = 0 ∧ getTotalBuyIn t0 = 0 ∧
    getTotalCashOut t0 = 0 ∧ getTotalGamesPlayed t0 = 0 :=
  (aggregates_spec t0).2.2.2.2 rfl

/-- C9: updating an existing id modifies only the supplied fields of the
first record carrying that id (plus `gainLoss` when `buyIn` or `cashOut`
is supplied): its id and every unsupplied field keep their previous
values, and the records before and after it are untouched. -/
theorem updateGame_frame (t : Tracker) (id : String) (u : UpdateData)
    (pre post : List Game) (g : Game) (hsplit : t.games = pre ++ g :: post)
    (hpre : ∀ x ∈ pre, x.id ≠ id) (hg : g.id = id) :
    updateGame t id u =
      Except.ok { t with games := pre ++ applyUpdate u g :: post } ∧
    (applyUpdate u g).id = g.id ∧
    (u.gameName = none → (applyUpdate u g).gameName = g.gameName) ∧
    (u.buyIn = none → (applyUpdate u g).buyIn = g.buyIn) ∧
    (u.cashOut = none → (applyUpdate u g).cashOut = g.cashOut) ∧
    (u.stakes = none → (applyUpdate u g).stakes = g.stakes) ∧
    (u.buyIn = none → u.cashOut = none →
      (applyUpdate u g).gainLoss = g.gainLoss) := by
  obtain ⟨h1, h2, h3, h4, h5⟩ := applyUpdate_frame u g
  refine ⟨?_, applyUpdate_id u g, h1, h2, h3, h4, h5⟩
  unfold updateGame
  rw [hsplit, updateFirst_append u id pre g post hpre hg]

theorem updateGame_frame_witness :
    updateGame t1 "_x" uBuy =
      Except.ok { t1 with games := [] ++ applyUpdate uBuy rec1 :: [] } :=
  (updateGame_frame t1 "_x" uBuy [] [] rec1 rfl (by simp) rfl).1

/-- C10: `deleteGame` removes every record carrying the given id — even
when several share it — and keeps exactly the non-matching records, in
order. -/
theorem deleteGame_removes_all (t : Tracker) (id : String) :
    (∀ g ∈ (deleteGame t id).games, g.id ≠ id) ∧
    (∀ g, g ∈ t.games → g.id ≠ id → g ∈ (deleteGame t id).games) ∧
    (deleteGame t id).games.Sublist t.games := by
  refine ⟨?_, ?_, List.filter_sublist _⟩
  · intro g hg
    have := (List.mem_filter.mp hg).2
    simpa using this
  · intro g hgmem hgid
    exact List.mem_filter.mpr ⟨hgmem, by simpa using hgid⟩

theorem deleteGame_removes_all_witness :
    rec1 ∈ (deleteGame t1 "nope").games :=
  (deleteGame_removes_all t1 "nope").2.1 rec1
    (by simp [t1, t0, addGame, generateId, supplyX, rec1, calculateGainLoss])
    (by decide)

end BankrollBuddy
